import Mathlib

/-!
# Verification of the NEM12 processing pipeline

Shallow embedding of the core pipeline of `StreamlitNem.py`:

* `parseNem12`       — the record parser (`parse_nem12_csv_file`), a fold over the
  file's lines (each line given as its comma-separated fields);
* `expandRecord`     — the interval expander (the inner loop of
  `create_hourly_dataframe`, lines 118-132);
* `temporalFilter`   — the trailing 730-day window filter (lines 141-151);
* `aggregate`        — the hourly group-by aggregation with derived power
  metrics (lines 157-186);
* `createHourly`, `processNem12File` — the assembled pipeline.

Modelling conventions:
* floats are modelled as exact rationals `ℚ`; `numpy`'s `.round(6)`
  (round-half-to-even) is modelled exactly by `round6`;
* `np.nan` missing readings are modelled as `none : Option ℚ` (the expander
  drops `nan` slots, so a `nan` produced by an unparseable value is
  observationally a missing slot); non-finite literals (`inf`/`nan`) are
  mapped to `none` as well;
* calendar dates are day ordinals (`ℤ`, proleptic Gregorian, as
  `datetime.date.toordinal`); timestamps are minutes (`ℤ`), so
  `timedelta(minutes=5*i)` is `+ 5*i` and flooring to the hour is
  `60 * (t / 60)` (integer division on `ℤ` is floor division for a
  positive divisor, matching pandas `floor('h')`);
* pandas sorts group keys in its output; the properties proved below are
  order-independent, so rows are produced in first-grouping order instead;
  the purely presentational `day_of_week`/`month`/`year` columns are not
  modelled.
-/

set_option maxRecDepth 10000

/-! ## String and number primitives (models of the Python built-ins used) -/

/-- Model of Python `str.strip()`: drop leading and trailing whitespace. -/
def stripStr (s : String) : String :=
  String.mk (((s.toList.dropWhile Char.isWhitespace).reverse.dropWhile
    Char.isWhitespace).reverse)

/-- Model of `value_str.replace("\x27", "").replace(Char 34, "")` from line 72:
remove every single-quote (code 39) and double-quote (code 34) character. -/
def stripQuoteChars (s : String) : String :=
  String.mk (s.toList.filter (fun c => !(c == Char.ofNat 39 || c == Char.ofNat 34)))

/-- Numeric value of a digit string (most significant first). -/
def digitsVal (l : List Char) : ℕ := l.foldl (fun a c => 10 * a + (c.toNat - 48)) 0

def allDigits (l : List Char) : Bool := l.all Char.isDigit

/-- Strip an optional leading sign, returning the sign as `±1`. -/
def readSign (l : List Char) : ℤ × List Char :=
  match l with
  | [] => (1, [])
  | c :: rest =>
    if c = Char.ofNat 45 then (-1, rest)
    else if c = Char.ofNat 43 then (1, rest)
    else (1, c :: rest)

/-- Split a char list at the first char satisfying `p` (that char removed). -/
def splitFirstP (p : Char → Bool) : List Char → Option (List Char × List Char)
  | [] => none
  | x :: xs =>
    if p x then some ([], xs)
    else (splitFirstP p xs).map (fun q => (x :: q.1, q.2))

/-- Value of a decimal mantissa `digits[.digits]` (at least one digit overall). -/
def mantissaVal (l : List Char) : Option ℚ :=
  match splitFirstP (fun c => c == Char.ofNat 46) l with
  | none => if l ≠ [] ∧ allDigits l = true then some (digitsVal l) else none
  | some q =>
    if (q.1 ≠ [] ∨ q.2 ≠ []) ∧ allDigits q.1 = true ∧ allDigits q.2 = true then
      some ((digitsVal q.1 : ℚ) + (digitsVal q.2 : ℚ) / 10 ^ q.2.length)
    else none

/-- Value of an exponent part: optional sign then at least one digit. -/
def expVal (l : List Char) : Option ℤ :=
  let sr := readSign l
  if sr.2 ≠ [] ∧ allDigits sr.2 = true then some (sr.1 * (digitsVal sr.2 : ℤ)) else none

def pow10 (e : ℤ) : ℚ := if 0 ≤ e then ((10 : ℚ) ^ e.toNat) else 1 / 10 ^ (-e).toNat

/-- Model of Python `float(...)` on a finite decimal literal
`[sign] digits [. digits] [(e|E) [sign] digits]`; `none` on anything else.
Non-finite results (`inf`, `nan` spellings) are mapped to `none`: a parsed
`nan` is dropped by the expander exactly like a missing slot, so this is
observationally faithful for every finite reading. -/
def parseFloatQ (s : String) : Option ℚ :=
  let sr := readSign s.toList
  match splitFirstP (fun c => c == Char.ofNat 101 || c == Char.ofNat 69) sr.2 with
  | none => (mantissaVal sr.2).map (fun m => (sr.1 : ℚ) * m)
  | some me =>
    match mantissaVal me.1, expVal me.2 with
    | some m, some ex => some ((sr.1 : ℚ) * m * pow10 ex)
    | _, _ => none

/-- Lines 70-80 of the source: strip the field, remove quote characters, strip
again; an empty result or a failed `float(...)` parse yields a missing slot
(`np.nan`, modelled `none`). -/
def parseValue (s : String) : Option ℚ :=
  let t := stripStr (stripQuoteChars (stripStr s))
  if t = "" then none else parseFloatQ t

/-! ## Calendar dates (model of `datetime.strptime(date_str, "%Y%m%d")`) -/

def isLeap (y : ℕ) : Bool := (y % 4 == 0 && y % 100 != 0) || y % 400 == 0

def daysInMonth (y m : ℕ) : ℕ :=
  if m = 2 then (if isLeap y then 29 else 28)
  else if m = 4 ∨ m = 6 ∨ m = 9 ∨ m = 11 then 30
  else 31

def daysBeforeMonth (y m : ℕ) : ℕ :=
  (List.range (m - 1)).foldl (fun a k => a + daysInMonth y (k + 1)) 0

/-- Proleptic-Gregorian day ordinal of a calendar date, as
`datetime.date(y, m, d).toordinal()` (0001-01-01 is day 1). -/
def toOrdinal (y m d : ℕ) : ℤ :=
  ((365 * (y - 1) + (y - 1) / 4 + (y - 1) / 400 - (y - 1) / 100
    + daysBeforeMonth y m + d : ℕ) : ℤ)

/-- Model of lines 62-65: the (stripped) date string must be exactly 8
characters and parse under `%Y%m%d` — four year digits (year ≥ 1), two month
digits, two day digits, forming a valid calendar date; a `strptime` failure is
caught and skips the line, modelled by `none`. -/
def parseDate (s : String) : Option ℤ :=
  let cs := s.toList
  if cs.length = 8 ∧ allDigits cs = true then
    let y := digitsVal (cs.take 4)
    let m := digitsVal ((cs.drop 4).take 2)
    let d := digitsVal (cs.drop 6)
    if 1 ≤ y ∧ 1 ≤ m ∧ m ≤ 12 ∧ 1 ≤ d ∧ d ≤ daysInMonth y m then
      some (toOrdinal y m d)
    else none
  else none

/-! ## Record parser (`parse_nem12_csv_file`, lines 16-105) -/

/-- Lines 43-50: the fixed section lookup with fallback. -/
def sectionMapping (code : String) : String :=
  if code = "E5" then "Import"
  else if code = "B5" then "Export"
  else if code = "E1" then "Import"
  else if code = "B1" then "Export"
  else if code = "E2" then "Controlled Load"
  else "Not Mapped"

/-- Parser state: `current_nmi` and `current_section`, both initially `None`. -/
structure ParseState where
  currentNmi : Option String
  currentSection : Option String
deriving DecidableEq

/-- Python truthiness of `current_nmi` / `current_section` in line 56:
`None` and the empty string are falsy. -/
def truthy : Option String → Bool
  | none => false
  | some s => !(s == "")

structure IntervalRecord where
  nmi : String
  sec : String
  dateOrd : ℤ
  values : List (Option ℚ)
deriving DecidableEq

/-- Lines 68-87: parse fields `2 .. min(len, 290) - 1` as interval values,
right-pad with missing (`np.nan`) to 288, keep only the first 288. -/
def buildValues (fields : List String) : List (Option ℚ) :=
  let raw := (List.range' 2 (min fields.length 290 - 2)).map
    (fun i => parseValue (fields.getD i ""))
  (raw ++ List.replicate (288 - raw.length) none).take 288

/-- One iteration of the parser loop (lines 26-99) on one line, already split
into its comma-separated fields.  The accumulator carries the parser state and
the records emitted so far.  Inside the `try` of the "300" branch only
`strptime` can raise; the handler skips the line, so a date-parse failure is
modelled as returning the accumulator unchanged. -/
def processLine (acc : ParseState × List IntervalRecord) (fields : List String) :
    ParseState × List IntervalRecord :=
  if fields = [] then acc
  else if fields.headD "" = "200" then
    if 6 ≤ fields.length then
      (⟨some (fields.getD 1 ""), some (sectionMapping (fields.getD 3 ""))⟩, acc.2)
    else acc
  else if fields.headD "" = "300" then
    if truthy acc.1.currentNmi && truthy acc.1.currentSection
        && decide (3 ≤ fields.length) then
      match parseDate (stripStr (fields.getD 1 "")) with
      | some d =>
        (acc.1, acc.2 ++ [⟨(acc.1.currentNmi).getD "", (acc.1.currentSection).getD "",
          d, buildValues fields⟩])
      | none => acc
    else acc
  else acc

/-- The record parser: fold the per-line step over the file, starting from the
unset state, and return the emitted records in order. -/
def parseNem12 (lines : List (List String)) : List IntervalRecord :=
  (lines.foldl processLine (⟨none, none⟩, [])).2

/-! ## Interval expander (lines 118-132) -/

structure FiveMinuteSample where
  nmi : String
  sec : String
  /-- minutes: `record.date_obj + timedelta(minutes=5*i)`. -/
  timestamp : ℤ
  /-- the record's own calendar date (line 128), a day ordinal. -/
  date : ℤ
  energy : ℚ
deriving DecidableEq

def sampleAt (r : IntervalRecord) (i : ℕ) (v : ℚ) : FiveMinuteSample :=
  ⟨r.nmi, r.sec, r.dateOrd * 1440 + 5 * i, r.dateOrd, v⟩

/-- `for i, value in enumerate(record['interval_values']): if not np.isnan(value): ...` -/
def expandFrom (r : IntervalRecord) : ℕ → List (Option ℚ) → List FiveMinuteSample
  | _, [] => []
  | i, none :: rest => expandFrom r (i + 1) rest
  | i, some v :: rest => sampleAt r i v :: expandFrom r (i + 1) rest

def expandRecord (r : IntervalRecord) : List FiveMinuteSample :=
  expandFrom r 0 r.values

def expand (records : List IntervalRecord) : List FiveMinuteSample :=
  records.flatMap expandRecord

/-! ## Temporal filter (lines 141-151) -/

def maxDate : List FiveMinuteSample → ℤ
  | [] => 0
  | s :: t => t.foldl (fun m x => max m x.date) s.date

/-- `cutoff_date = max_date - timedelta(days=730)`. -/
def cutoffDate (l : List FiveMinuteSample) : ℤ := maxDate l - 730

/-- `df_5min = df_5min[df_5min['date'] >= cutoff_date]`. -/
def temporalFilter (l : List FiveMinuteSample) : List FiveMinuteSample :=
  l.filter (fun s => cutoffDate l ≤ s.date)

/-! ## Hourly aggregation (lines 157-186) -/

/-- Round half to even at integer resolution (the rounding of `np.round`). -/
def rhe (q : ℚ) : ℤ :=
  if q - ⌊q⌋ < 1 / 2 then ⌊q⌋
  else if 1 / 2 < q - ⌊q⌋ then ⌊q⌋ + 1
  else if ⌊q⌋ % 2 = 0 then ⌊q⌋ else ⌊q⌋ + 1

/-- `np.round(_, 6)`: round to the nearest multiple of `10⁻⁶`, ties to even. -/
def round6 (q : ℚ) : ℚ := (rhe (q * 1000000) : ℚ) / 1000000

/-- The group-by key of line 160: `(nmi, section, hourly_group)` with
`hourly_group = timestamp.floor('h')` (line 157). -/
def sampleKey (s : FiveMinuteSample) : String × String × ℤ :=
  (s.nmi, s.sec, 60 * (s.timestamp / 60))

/-- The distinct group keys present in the sample list. -/
def sampleKeys (l : List FiveMinuteSample) : List (String × String × ℤ) :=
  (l.map sampleKey).dedup

/-- The samples of one group. -/
def groupOf (l : List FiveMinuteSample) (k : String × String × ℤ) :
    List FiveMinuteSample :=
  l.filter (fun s => sampleKey s = k)

def gSum (g : List FiveMinuteSample) : ℚ := (g.map (fun s => s.energy)).sum

def gMin : List FiveMinuteSample → ℚ
  | [] => 0
  | s :: t => t.foldl (fun m x => min m x.energy) s.energy

def gMax : List FiveMinuteSample → ℚ
  | [] => 0
  | s :: t => t.foldl (fun m x => max m x.energy) s.energy

structure HourlyAggregate where
  nmi : String
  sec : String
  hourly_group : ℤ
  hourly_energy_kwh : ℚ
  avg_5min_energy_kwh : ℚ
  min_5min_energy_kwh : ℚ
  max_5min_energy_kwh : ℚ
  interval_count : ℕ
  date : ℤ
  hour : ℤ
  avg_power_kw : ℚ
  min_power_kw : ℚ
  max_power_kw : ℚ
deriving DecidableEq

/-- One output row: the `agg(...)` statistics are rounded once at line 162,
the power columns multiply the already-rounded statistics by 12 (lines
178-180), and line 186 rounds every numeric column once more. -/
def mkRow (k : String × String × ℤ) (g : List FiveMinuteSample) : HourlyAggregate where
  nmi := k.1
  sec := k.2.1
  hourly_group := k.2.2
  hourly_energy_kwh := round6 (round6 (gSum g))
  avg_5min_energy_kwh := round6 (round6 (gSum g / g.length))
  min_5min_energy_kwh := round6 (round6 (gMin g))
  max_5min_energy_kwh := round6 (round6 (gMax g))
  interval_count := g.length
  date := k.2.2 / 1440
  hour := k.2.2 / 60 % 24
  avg_power_kw := round6 (round6 (gSum g / g.length) * 12)
  min_power_kw := round6 (round6 (gMin g) * 12)
  max_power_kw := round6 (round6 (gMax g) * 12)

/-- The group-by aggregation: one row per distinct key. -/
def aggregate (l : List FiveMinuteSample) : List HourlyAggregate :=
  (sampleKeys l).map (fun k => mkRow k (groupOf l k))

/-- `create_hourly_dataframe` (lines 107-190): `None` on an empty record list
(line 113) or when no sample materialises (line 136); otherwise the hourly
aggregation of the filtered samples. -/
def createHourly (records : List IntervalRecord) : Option (List HourlyAggregate) :=
  if records = [] then none
  else if expand records = [] then none
  else some (aggregate (temporalFilter (expand records)))

/-- `process_nem12_file` (lines 269-285): `None` when the parser emits no
record (line 280), otherwise `create_hourly_dataframe`. -/
def processNem12File (lines : List (List String)) : Option (List HourlyAggregate) :=
  let records := parseNem12 lines
  if records = [] then none else createHourly records

/-- The distinct-key index of a full-day record: bucket `h` collects the
values at slots `12h .. 12h+11`. -/
def dayKey (r : IntervalRecord) (h : ℕ) : String × String × ℤ :=
  (r.nmi, r.sec, r.dateOrd * 1440 + 60 * (h : ℤ))

/-- Exact (pre-rounding) energy of hour bucket `h` of a full day of values. -/
def bucketSum (vs : List ℚ) (h : ℕ) : ℚ :=
  ((((List.range vs.length).zip vs).filter (fun p => p.1 / 12 = h)).map Prod.snd).sum

/-- The most recent "200" line with at least 6 fields, if any. -/
def lastValidHeader (lines : List (List String)) : Option (List String) :=
  lines.reverse.find? (fun f => decide (f.headD "" = "200" ∧ 6 ≤ f.length))

/-! ## Rounding lemmas -/

theorem rhe_sub_abs (q : ℚ) : |(rhe q : ℚ) - q| ≤ 1 / 2 := by
  have h0 : (⌊q⌋ : ℚ) ≤ q := Int.floor_le q
  have h1 : q < ⌊q⌋ + 1 := Int.lt_floor_add_one q
  unfold rhe
  split_ifs with hlt hgt heven <;>
    (rw [abs_le] ; constructor <;> push_cast <;> linarith)

theorem round6_sub_abs (q : ℚ) : |round6 q - q| ≤ 1 / 2000000 := by
  have h := rhe_sub_abs (q * 1000000)
  have heq : round6 q - q = ((rhe (q * 1000000) : ℚ) - q * 1000000) / 1000000 := by
    rw [round6] ; ring
  rw [heq, abs_div]
  rw [show |(1000000 : ℚ)| = 1000000 by norm_num]
  rw [div_le_div_iff (by norm_num) (by norm_num)]
  nlinarith [h]

theorem rhe_intCast (n : ℤ) : rhe (n : ℚ) = n := by
  unfold rhe
  rw [Int.floor_intCast]
  norm_num

theorem round6_millionth (n : ℤ) : round6 ((n : ℚ) / 1000000) = (n : ℚ) / 1000000 := by
  rw [round6, div_mul_cancel₀ _ (by norm_num : (1000000 : ℚ) ≠ 0), rhe_intCast]

theorem round6_round6 (q : ℚ) : round6 (round6 q) = round6 q := by
  rw [show round6 q = ((rhe (q * 1000000) : ℚ) / 1000000) from rfl]
  exact round6_millionth _

theorem round6_mul12 (q : ℚ) : round6 (round6 q * 12) = round6 q * 12 := by
  have h : round6 q * 12 = ((12 * rhe (q * 1000000) : ℤ) : ℚ) / 1000000 := by
    rw [round6] ; push_cast ; ring
  rw [h, round6_millionth]

theorem rhe_eq_of_lt_half (q : ℚ) (n : ℤ) (h1 : (n : ℚ) ≤ q) (h2 : q < (n : ℚ) + 1 / 2) :
    rhe q = n := by
  have hf : ⌊q⌋ = n := by
    rw [Int.floor_eq_iff]
    refine ⟨h1, ?_⟩
    push_cast
    linarith
  unfold rhe
  rw [hf, if_pos (by push_cast ; linarith)]

theorem rhe_eq_of_tie (q : ℚ) (n : ℤ) (h : q = (n : ℚ) + 1 / 2) :
    rhe q = if n % 2 = 0 then n else n + 1 := by
  have hf : ⌊q⌋ = n := by
    rw [Int.floor_eq_iff]
    constructor
    · linarith [h.ge]
    · push_cast
      linarith [h.le]
  unfold rhe
  rw [hf, if_neg (by push_cast ; linarith), if_neg (by push_cast ; linarith)]

/-! ## Projection lemmas for `mkRow` -/

@[simp] theorem mkRow_nmi (k : String × String × ℤ) (g : List FiveMinuteSample) :
    (mkRow k g).nmi = k.1 := rfl

@[simp] theorem mkRow_sec (k : String × String × ℤ) (g : List FiveMinuteSample) :
    (mkRow k g).sec = k.2.1 := rfl

@[simp] theorem mkRow_hourly_group (k : String × String × ℤ) (g : List FiveMinuteSample) :
    (mkRow k g).hourly_group = k.2.2 := rfl

@[simp] theorem mkRow_hourly_energy (k : String × String × ℤ) (g : List FiveMinuteSample) :
    (mkRow k g).hourly_energy_kwh = round6 (round6 (gSum g)) := rfl

@[simp] theorem mkRow_avg5 (k : String × String × ℤ) (g : List FiveMinuteSample) :
    (mkRow k g).avg_5min_energy_kwh = round6 (round6 (gSum g / g.length)) := rfl

@[simp] theorem mkRow_avg_power (k : String × String × ℤ) (g : List FiveMinuteSample) :
    (mkRow k g).avg_power_kw = round6 (round6 (gSum g / g.length) * 12) := rfl

@[simp] theorem mkRow_min_power (k : String × String × ℤ) (g : List FiveMinuteSample) :
    (mkRow k g).min_power_kw = round6 (round6 (gMin g) * 12) := rfl

@[simp] theorem mkRow_max_power (k : String × String × ℤ) (g : List FiveMinuteSample) :
    (mkRow k g).max_power_kw = round6 (round6 (gMax g) * 12) := rfl

/-! ## Generic list lemmas: indicator sums, fiberwise summation, error bounds -/

theorem sum_map_ind_zero {κ : Type} [DecidableEq κ] (k₀ : κ) (c : ℚ) :
    ∀ ks : List κ, k₀ ∉ ks → (ks.map (fun k => if k₀ = k then c else 0)).sum = 0 := by
  intro ks
  induction ks with
  | nil => intro _ ; simp
  | cons a t ih =>
    intro hmem
    have ha : k₀ ≠ a := fun h => hmem (h ▸ List.mem_cons_self a t)
    have ht : k₀ ∉ t := fun h => hmem (List.mem_cons_of_mem a h)
    simp [ha, ih ht]

theorem sum_map_ind {κ : Type} [DecidableEq κ] (k₀ : κ) (c : ℚ) :
    ∀ ks : List κ, ks.Nodup → k₀ ∈ ks → (ks.map (fun k => if k₀ = k then c else 0)).sum = c := by
  intro ks
  induction ks with
  | nil => intro _ h ; exact absurd h (List.not_mem_nil k₀)
  | cons a t ih =>
    intro hnd hmem
    rcases List.mem_cons.mp hmem with h | h
    · subst h
      have : k₀ ∉ t := (List.nodup_cons.mp hnd).1
      simp [sum_map_ind_zero k₀ c t this]
    · have ha : k₀ ≠ a := by
        rintro rfl
        exact (List.nodup_cons.mp hnd).1 h
      simp [ha, ih (List.nodup_cons.mp hnd).2 h]

/-- Summing a function fiberwise over the distinct keys covering a list gives
the total sum. -/
theorem sum_fiberwise {α κ : Type} [DecidableEq κ] (F : α → κ) (f : α → ℚ) :
    ∀ (l : List α) (ks : List κ), ks.Nodup → (∀ a ∈ l, F a ∈ ks) →
      (ks.map (fun k => ((l.filter (fun a => F a = k)).map f).sum)).sum = (l.map f).sum := by
  intro l
  induction l with
  | nil =>
    intro ks _ _
    refine (List.sum_eq_zero ?_).trans (by simp)
    intro x hx
    rcases List.mem_map.mp hx with ⟨k, _, hk⟩
    simpa using hk.symm
  | cons a t ih =>
    intro ks hnd hcov
    have hmem : F a ∈ ks := hcov a (List.mem_cons_self a t)
    have hcov' : ∀ x ∈ t, F x ∈ ks := fun x hx => hcov x (List.mem_cons_of_mem a hx)
    have hstep : ∀ k ∈ ks,
        (((a :: t).filter (fun x => F x = k)).map f).sum
          = (if F a = k then f a else 0) + ((t.filter (fun x => F x = k)).map f).sum := by
      intro k _
      by_cases h : F a = k <;> simp [List.filter_cons, h]
    rw [List.map_congr_left hstep, List.sum_map_add]
    rw [sum_map_ind (F a) (f a) ks hnd hmem, ih ks hnd hcov']
    simp

/-- If each summand differs from its exact value by at most `c`, the sums
differ by at most `length * c`. -/
theorem sum_sub_abs_le {α : Type} (f g : α → ℚ) (c : ℚ) :
    ∀ ks : List α, (∀ k ∈ ks, |f k - g k| ≤ c) →
      |(ks.map f).sum - (ks.map g).sum| ≤ ks.length * c := by
  intro ks
  induction ks with
  | nil => intro _ ; simp
  | cons a t ih =>
    intro hb
    have h1 : |f a - g a| ≤ c := hb a (List.mem_cons_self a t)
    have h2 : |(t.map f).sum - (t.map g).sum| ≤ t.length * c :=
      ih fun k hk => hb k (List.mem_cons_of_mem a hk)
    have hsplit : ((a :: t).map f).sum - ((a :: t).map g).sum
        = (f a - g a) + ((t.map f).sum - (t.map g).sum) := by
      simp ; ring
    rw [hsplit]
    calc |(f a - g a) + ((t.map f).sum - (t.map g).sum)|
        ≤ |f a - g a| + |(t.map f).sum - (t.map g).sum| := abs_add _ _
      _ ≤ c + t.length * c := add_le_add h1 h2
      _ = (a :: t).length * c := by simp ; ring

@[simp] theorem mkRow_min5 (k : String × String × ℤ) (g : List FiveMinuteSample) :
    (mkRow k g).min_5min_energy_kwh = round6 (round6 (gMin g)) := rfl

@[simp] theorem mkRow_max5 (k : String × String × ℤ) (g : List FiveMinuteSample) :
    (mkRow k g).max_5min_energy_kwh = round6 (round6 (gMax g)) := rfl

/-! ## Temporal filter lemmas -/

theorem foldl_max_attained : ∀ (t : List FiveMinuteSample) (m : ℤ),
    (t.foldl (fun a x => max a x.date) m = m
      ∨ ∃ s ∈ t, t.foldl (fun a x => max a x.date) m = s.date) := by
  intro t
  induction t with
  | nil => intro m ; exact Or.inl rfl
  | cons x ts ih =>
    intro m
    rcases ih (max m x.date) with h | ⟨s, hs, hval⟩
    · rcases le_total m x.date with hle | hle
      · exact Or.inr ⟨x, List.mem_cons_self _ _,
          by simp only [List.foldl_cons] ; rw [h, max_eq_right hle]⟩
      · exact Or.inl (by simp only [List.foldl_cons] ; rw [h, max_eq_left hle])
    · exact Or.inr ⟨s, List.mem_cons_of_mem _ hs, by simp only [List.foldl_cons] ; exact hval⟩

theorem maxDate_attained (l : List FiveMinuteSample) (h : l ≠ []) :
    ∃ s ∈ l, s.date = maxDate l := by
  match l with
  | [] => exact absurd rfl h
  | s :: t =>
    rcases foldl_max_attained t s.date with h1 | ⟨u, hu, hval⟩
    · exact ⟨s, List.mem_cons_self _ _, by rw [maxDate, h1]⟩
    · exact ⟨u, List.mem_cons_of_mem _ hu, by rw [maxDate, hval]⟩

/-! ## Claim theorems: C2, C5, C7, C10 -/

/-- C2: for a non-empty sample sequence with `D = maxDate`, the temporal
filter retains exactly the samples with `calendar_date ≥ D - 730`
(`cutoffDate`, inclusive); a sample dated exactly `D - 730` is retained and a
sample dated `D - 731` is never in the output. -/
theorem C2_window_boundary (l : List FiveMinuteSample) (hne : l ≠ []) :
    (∀ s, s ∈ temporalFilter l ↔ (s ∈ l ∧ cutoffDate l ≤ s.date))
    ∧ (∀ s ∈ l, s.date = maxDate l - 730 → s ∈ temporalFilter l)
    ∧ (∀ s, s.date = maxDate l - 731 → s ∉ temporalFilter l) := by
  refine ⟨?_, ?_, ?_⟩
  · intro s
    simp [temporalFilter, List.mem_filter]
  · intro s hs hdate
    rw [temporalFilter, List.mem_filter]
    refine ⟨hs, ?_⟩
    rw [decide_eq_true_eq, cutoffDate]
    omega
  · intro s hdate hmem
    rw [temporalFilter, List.mem_filter] at hmem
    have h2 := of_decide_eq_true hmem.2
    rw [cutoffDate] at h2
    omega

def cexW2list : List FiveMinuteSample :=
  [⟨"NMI001", "Import", 144000, 100, 1⟩,
   ⟨"NMI001", "Import", -907200, -630, 2⟩,
   ⟨"NMI001", "Import", -908640, -631, 3⟩]

theorem C2_witness :
    cexW2list ≠ []
    ∧ ((∀ s, s ∈ temporalFilter cexW2list ↔ (s ∈ cexW2list ∧ cutoffDate cexW2list ≤ s.date))
      ∧ (∀ s ∈ cexW2list, s.date = maxDate cexW2list - 730 → s ∈ temporalFilter cexW2list)
      ∧ (∀ s, s.date = maxDate cexW2list - 731 → s ∉ temporalFilter cexW2list)) :=
  ⟨by simp [cexW2list], C2_window_boundary cexW2list (by simp [cexW2list])⟩

/-- C5 (amended): the aggregation statistics (`mean`, `min`, `max`) are
rounded to 6 decimal places *before* the conversion to power, so each power
column equals the *rounded* statistic times 12 (the final rounding pass of
line 186 is then a no-op on these columns, since a multiple of `10⁻⁶` times 12
is again a multiple of `10⁻⁶`).  This differs from rounding the product
`statistic × 12`, see the counterexample. -/
theorem C5_power_metrics (l : List FiveMinuteSample) (k : String × String × ℤ)
    (g : List FiveMinuteSample) :
    aggregate l = (sampleKeys l).map (fun k₂ => mkRow k₂ (groupOf l k₂))
    ∧ (mkRow k g).avg_5min_energy_kwh = round6 (gSum g / g.length)
    ∧ (mkRow k g).min_5min_energy_kwh = round6 (gMin g)
    ∧ (mkRow k g).max_5min_energy_kwh = round6 (gMax g)
    ∧ (mkRow k g).avg_power_kw = round6 (gSum g / g.length) * 12
    ∧ (mkRow k g).min_power_kw = round6 (gMin g) * 12
    ∧ (mkRow k g).max_power_kw = round6 (gMax g) * 12 := by
  refine ⟨rfl, ?_, ?_, ?_, ?_, ?_, ?_⟩ <;> simp [round6_round6, round6_mul12]

def cexC5sample : FiveMinuteSample := ⟨"NMI001", "Import", 0, 0, 1 / 10000000⟩

/-- C5 counterexample: for the group of the single sample with energy
`10⁻⁷` kWh, the code produces `avg_power_kw = 0` (the mean is rounded to 0
before multiplying by 12), while the claimed value
`round6(mean × 12) = round6(1.2e-6) = 1e-6 ≠ 0`. -/
theorem C5_counterexample :
    ((aggregate [cexC5sample]).map (fun row => row.avg_power_kw)) = [0]
    ∧ round6 ((gSum [cexC5sample] / ([cexC5sample] : List FiveMinuteSample).length) * 12)
        = 1 / 1000000
    ∧ (0 : ℚ) ≠ 1 / 1000000 := by
  have e1 : round6 ((1 : ℚ) / 10000000) = 0 := by
    rw [round6, show ((1 : ℚ) / 10000000 * 1000000) = 1 / 10 by norm_num,
      rhe_eq_of_lt_half (1 / 10) 0 (by norm_num) (by norm_num)]
    norm_num
  have e0 : round6 (0 : ℚ) = 0 := by
    rw [round6, show ((0 : ℚ) * 1000000) = ((0 : ℤ) : ℚ) by norm_num, rhe_intCast]
    norm_num
  have hkeys : sampleKeys [cexC5sample] = [sampleKey cexC5sample] := by
    rw [sampleKeys, List.map_singleton,
      List.dedup_cons_of_not_mem (List.not_mem_nil _), List.dedup_nil]
  have hgroup : groupOf [cexC5sample] (sampleKey cexC5sample) = [cexC5sample] := by
    simp [groupOf]
  have hsum : gSum [cexC5sample] = 1 / 10000000 := by
    simp [gSum, cexC5sample]
  refine ⟨?_, ?_, by norm_num⟩
  · rw [aggregate, hkeys, List.map_singleton, List.map_singleton, hgroup, mkRow_avg_power,
      hsum]
    norm_num [e1, e0]
  · rw [hsum]
    rw [show ((1 : ℚ) / 10000000 / (([cexC5sample] : List FiveMinuteSample).length : ℚ) * 12)
        = 6 / 5000000 by norm_num]
    rw [round6, show ((6 : ℚ) / 5000000 * 1000000) = 6 / 5 by norm_num,
      rhe_eq_of_lt_half (6 / 5) 1 (by norm_num) (by norm_num)]
    norm_num

/-- C7: the hourly aggregation emits at most one row per distinct
`(meter id, section, hour bucket)` key: the projection of the output rows to
their keys has no duplicates. -/
theorem C7_key_uniqueness (l : List FiveMinuteSample) :
    ((aggregate l).map (fun row => (row.nmi, row.sec, row.hourly_group))).Nodup := by
  unfold aggregate
  rw [List.map_map]
  have hcomp : ((fun row => (row.nmi, row.sec, row.hourly_group))
      ∘ fun k => mkRow k (groupOf l k)) = fun k => k := by
    funext k
    simp
  rw [hcomp]
  rw [show List.map (fun k => k) (sampleKeys l) = sampleKeys l from List.map_id _]
  exact List.nodup_dedup _

/-- C10: the temporal filter never empties a non-empty sample list — every
sample dated at the maximum date is retained (the cutoff is
`max_date - 730 ≤ max_date`), and such a sample always exists. -/
theorem C10_filter_nonempty (l : List FiveMinuteSample) (hne : l ≠ []) :
    (∀ s ∈ l, s.date = maxDate l → s ∈ temporalFilter l) ∧ temporalFilter l ≠ [] := by
  have hmax : ∀ s ∈ l, s.date = maxDate l → s ∈ temporalFilter l := by
    intro s hs hd
    rw [temporalFilter, List.mem_filter]
    refine ⟨hs, ?_⟩
    rw [decide_eq_true_eq, cutoffDate]
    omega
  refine ⟨hmax, ?_⟩
  obtain ⟨s, hs, hd⟩ := maxDate_attained l hne
  exact List.ne_nil_of_mem (hmax s hs hd)

def cexW10list : List FiveMinuteSample := [⟨"NMI002", "Export", 7200, 5, 2⟩]

theorem C10_witness : cexW10list ≠ [] ∧ temporalFilter cexW10list ≠ [] :=
  ⟨by simp [cexW10list], (C10_filter_nonempty cexW10list (by simp [cexW10list])).2⟩

/-! ## Record parser lemmas -/

theorem sectionMapping_ne_empty (s : String) : sectionMapping s ≠ "" := by
  unfold sectionMapping
  split_ifs <;> decide

theorem buildValues_length (fields : List String) : (buildValues fields).length = 288 := by
  simp only [buildValues, List.length_take, List.length_append, List.length_replicate,
    List.length_map, List.length_range']
  omega

theorem processLine_records_of_not300 (acc : ParseState × List IntervalRecord)
    (f : List String) (h : f.headD "" ≠ "300") : (processLine acc f).2 = acc.2 := by
  by_cases hnil : f = []
  · subst hnil ; rfl
  · by_cases h200 : f.headD "" = "200"
    · unfold processLine
      rw [if_neg hnil, if_pos h200]
      by_cases hlen : 6 ≤ f.length
      · rw [if_pos hlen]
      · rw [if_neg hlen]
    · unfold processLine
      rw [if_neg hnil, if_neg h200, if_neg h]

theorem processLine_records_cases (acc : ParseState × List IntervalRecord)
    (f : List String) :
    (processLine acc f).2 = acc.2
    ∨ ∃ d, (processLine acc f).2 = acc.2 ++ [⟨(acc.1.currentNmi).getD "",
        (acc.1.currentSection).getD "", d, buildValues f⟩] := by
  by_cases h300 : f.headD "" = "300"
  · by_cases hnil : f = []
    · subst hnil ; exact Or.inl rfl
    · have h200 : ¬ (f.headD "" = "200") := by rw [h300] ; decide
      unfold processLine
      rw [if_neg hnil, if_neg h200, if_pos h300]
      cases hg : (truthy acc.1.currentNmi && truthy acc.1.currentSection
          && decide (3 ≤ f.length)) with
      | false => rw [if_neg (by decide : ¬ (false = true))] ; exact Or.inl rfl
      | true =>
        rw [if_pos (rfl : (true = true))]
        cases hd : parseDate (stripStr (f.getD 1 "")) with
        | none => exact Or.inl rfl
        | some d => exact Or.inr ⟨d, rfl⟩
  · exact Or.inl (processLine_records_of_not300 acc f h300)

theorem parse_fold_values288 :
    ∀ (lines : List (List String)) (st : ParseState) (recs : List IntervalRecord),
      (∀ r ∈ recs, r.values.length = 288) →
      ∀ r ∈ (lines.foldl processLine (st, recs)).2, r.values.length = 288 := by
  intro lines
  induction lines with
  | nil => intro st recs h ; simpa using h
  | cons x xs ih =>
    intro st recs h
    rw [List.foldl_cons]
    have hstep : ∀ r ∈ (processLine (st, recs) x).2, r.values.length = 288 := by
      rcases processLine_records_cases (st, recs) x with he | ⟨d, he⟩
      · rw [he] ; exact h
      · rw [he]
        intro r hr
        rcases List.mem_append.mp hr with h1 | h1
        · exact h r h1
        · rw [List.mem_singleton.mp h1]
          exact buildValues_length x
    exact ih (processLine (st, recs) x).1 (processLine (st, recs) x).2 hstep

theorem foldl_records_no300 :
    ∀ (lines : List (List String)) (st : ParseState) (recs : List IntervalRecord),
      (∀ f ∈ lines, f.headD "" ≠ "300") → (lines.foldl processLine (st, recs)).2 = recs := by
  intro lines
  induction lines with
  | nil => intro st recs _ ; rfl
  | cons x xs ih =>
    intro st recs h
    rw [List.foldl_cons]
    have hx := processLine_records_of_not300 (st, recs) x (h x (List.mem_cons_self _ _))
    have hrest : (xs.foldl processLine (processLine (st, recs) x)).2
        = (processLine (st, recs) x).2 :=
      ih (processLine (st, recs) x).1 (processLine (st, recs) x).2
        (fun f hf => h f (List.mem_cons_of_mem _ hf))
    exact hrest.trans hx

/-! ## Claim theorems: C4, C8, C9 -/

/-- C4: every `IntervalRecord` emitted by the parser has exactly 288 values;
for an interval line supplying `n = min(len, 290) - 2 < 288` values the
positions from `n` on hold the missing marker (right padding), and a line
supplying more than 288 values is cut off at 288 (which the `min` bound and
the final `take` enforce). -/
theorem C4_padding_invariant :
    (∀ (lines : List (List String)) (r : IntervalRecord),
      r ∈ parseNem12 lines → r.values.length = 288)
    ∧ (∀ (fields : List String) (j : ℕ), j < 288 → min fields.length 290 - 2 ≤ j →
        (buildValues fields).getD j (some 0) = none) := by
  constructor
  · intro lines r hr
    exact parse_fold_values288 lines ⟨none, none⟩ [] (by simp) r hr
  · intro fields j hj hsupplied
    simp only [buildValues]
    rw [List.getD_eq_getElem?_getD, List.getElem?_take, if_pos hj]
    have hlenraw : ((List.range' 2 (min fields.length 290 - 2)).map
        (fun i => parseValue (fields.getD i ""))).length = min fields.length 290 - 2 := by
      simp
    rw [List.getElem?_append_right (by rw [hlenraw] ; exact hsupplied)]
    rw [hlenraw, List.getElem?_replicate, if_pos (by omega)]
    rfl

theorem C4_witness :
    (5 < 288 ∧ min (["300", "20240101", "1.5"] : List String).length 290 - 2 ≤ 5)
    ∧ (buildValues ["300", "20240101", "1.5"]).getD 5 (some 0) = none :=
  ⟨by decide, C4_padding_invariant.2 ["300", "20240101", "1.5"] 5 (by decide) (by decide)⟩

/-- C8: a "200" header line with fewer than 6 fields is skipped: the parser
state (current meter id and section) and the emitted records are exactly what
they were before the line. -/
theorem C8_malformed_header (st : ParseState) (recs : List IntervalRecord)
    (fields : List String) (h200 : fields.headD "" = "200") (hlen : fields.length < 6) :
    processLine (st, recs) fields = (st, recs) := by
  have hnil : fields ≠ [] := by
    intro h
    rw [h] at h200
    exact absurd h200 (by decide)
  unfold processLine
  rw [if_neg hnil, if_pos h200, if_neg (Nat.not_le.mpr hlen)]

theorem C8_witness :
    ((["200", "NMI001", "E5B5E1"] : List String).headD "" = "200"
      ∧ (["200", "NMI001", "E5B5E1"] : List String).length < 6)
    ∧ processLine (⟨some "X", some "Import"⟩, []) ["200", "NMI001", "E5B5E1"]
        = (⟨some "X", some "Import"⟩, []) :=
  ⟨by decide, C8_malformed_header _ _ _ (by decide) (by decide)⟩

/-- C9: an input yielding no interval record makes the pipeline return the
explicit empty result `none` (never a populated `some`); in particular a file
with no "300" line at all parses to zero records and yields `none`.  In this
embedding every pipeline function is total, so no exception can occur. -/
theorem C9_empty_input (lines : List (List String)) :
    (parseNem12 lines = [] → processNem12File lines = none)
    ∧ ((∀ f ∈ lines, f.headD "" ≠ "300") →
        parseNem12 lines = [] ∧ processNem12File lines = none) := by
  constructor
  · intro h
    simp [processNem12File, h]
  · intro h
    have hp : parseNem12 lines = [] := foldl_records_no300 lines ⟨none, none⟩ [] h
    exact ⟨hp, by simp [processNem12File, hp]⟩

def cexW9lines : List (List String) :=
  [["200", "NMI001", "E5B5E1", "E5", "a", "b"], ["100", "x"]]

theorem C9_witness :
    (∀ f ∈ cexW9lines, f.headD "" ≠ "300")
    ∧ (parseNem12 cexW9lines = [] ∧ processNem12File cexW9lines = none) :=
  ⟨by decide, (C9_empty_input cexW9lines).2 (by decide)⟩

/-! ## Parser state tracking (for C3) -/

theorem processLine_state (acc : ParseState × List IntervalRecord) (f : List String) :
    (processLine acc f).1 =
      if f.headD "" = "200" ∧ 6 ≤ f.length then
        (⟨some (f.getD 1 ""), some (sectionMapping (f.getD 3 ""))⟩ : ParseState)
      else acc.1 := by
  by_cases hnil : f = []
  · subst hnil
    rw [if_neg (fun hc => absurd hc.1 (by decide))]
    rfl
  · by_cases h200 : f.headD "" = "200"
    · by_cases hlen : 6 ≤ f.length
      · unfold processLine
        rw [if_neg hnil, if_pos h200, if_pos hlen, if_pos ⟨h200, hlen⟩]
      · unfold processLine
        rw [if_neg hnil, if_pos h200, if_neg hlen, if_neg (fun hc => hlen hc.2)]
    · rw [if_neg (fun hc => h200 hc.1)]
      by_cases h300 : f.headD "" = "300"
      · unfold processLine
        rw [if_neg hnil, if_neg h200, if_pos h300]
        cases hg : (truthy acc.1.currentNmi && truthy acc.1.currentSection
            && decide (3 ≤ f.length)) with
        | false => rw [if_neg (by decide : ¬ (false = true))]
        | true =>
          rw [if_pos (rfl : (true = true))]
          cases hd : parseDate (stripStr (f.getD 1 "")) with
          | none => rfl
          | some d => rfl
      · unfold processLine
        rw [if_neg hnil, if_neg h200, if_neg h300]

theorem lastValidHeader_cons (x : List String) (xs : List (List String)) :
    lastValidHeader (x :: xs) =
      match lastValidHeader xs with
      | some h => some h
      | none => if x.headD "" = "200" ∧ 6 ≤ x.length then some x else none := by
  unfold lastValidHeader
  rw [List.reverse_cons, List.find?_append]
  cases hfound : List.find? (fun f => decide (f.headD "" = "200" ∧ 6 ≤ f.length))
      xs.reverse with
  | some h => rfl
  | none =>
    by_cases hp : (x.headD "" = "200" ∧ 6 ≤ x.length)
    · have hfx : List.find? (fun f => decide (f.headD "" = "200" ∧ 6 ≤ f.length)) [x]
          = some x :=
        List.find?_cons_of_pos _ (decide_eq_true hp)
      rw [hfx, Option.none_or, if_pos hp]
    · have hfx : List.find? (fun f => decide (f.headD "" = "200" ∧ 6 ≤ f.length)) [x]
          = none := by
        have h1 : List.find? (fun f => decide (f.headD "" = "200" ∧ 6 ≤ f.length)) [x]
            = List.find? (fun f => decide (f.headD "" = "200" ∧ 6 ≤ f.length)) [] :=
          List.find?_cons_of_neg _ (by simpa using hp)
        rw [h1, List.find?_nil]
      rw [hfx, Option.none_or, if_neg hp]

theorem foldl_state :
    ∀ (lines : List (List String)) (st : ParseState) (recs : List IntervalRecord),
      (lines.foldl processLine (st, recs)).1 =
        (match lastValidHeader lines with
          | some h =>
            (⟨some (h.getD 1 ""), some (sectionMapping (h.getD 3 ""))⟩ : ParseState)
          | none => st) := by
  intro lines
  induction lines with
  | nil => intro st recs ; rfl
  | cons x xs ih =>
    intro st recs
    rw [List.foldl_cons, lastValidHeader_cons]
    have h1 : (xs.foldl processLine (processLine (st, recs) x)).1
        = (match lastValidHeader xs with
            | some h =>
              (⟨some (h.getD 1 ""), some (sectionMapping (h.getD 3 ""))⟩ : ParseState)
            | none => (processLine (st, recs) x).1) :=
      ih (processLine (st, recs) x).1 (processLine (st, recs) x).2
    cases hlv : lastValidHeader xs with
    | some h =>
      rw [hlv] at h1
      exact h1
    | none =>
      rw [hlv] at h1
      rw [h1, processLine_state (st, recs) x]
      by_cases hc : (x.headD "" = "200" ∧ 6 ≤ x.length)
      · rw [if_pos hc, if_pos hc]
      · rw [if_neg hc, if_neg hc]

/-- C3 (amended): a "300" line with ≥ 3 fields and a valid date produces an
`IntervalRecord` iff some "200" header with ≥ 6 fields precedes it *and* the
most recent such header has a non-empty meter-id field (field 1) — Python's
truthiness check on `current_nmi` also rejects an empty meter id.  In
particular a valid "300" line preceding every such header is silently
dropped, as the original claim says; the "only if" direction of the original
claim fails for headers with an empty meter-id field (see the
counterexample). -/
theorem C3_orphan_interval (lines : List (List String)) (f : List String)
    (h300 : f.headD "" = "300") (hlen : 3 ≤ f.length)
    (hdate : (parseDate (stripStr (f.getD 1 ""))).isSome = true) :
    (parseNem12 (lines ++ [f])).length
      = (parseNem12 lines).length
        + (match lastValidHeader lines with
            | some h => if h.getD 1 "" = "" then 0 else 1
            | none => 0) := by
  have hnil : f ≠ [] := by
    intro h
    rw [h] at h300
    exact absurd h300 (by decide)
  have h200 : ¬ (f.headD "" = "200") := by rw [h300] ; decide
  unfold parseNem12
  rw [List.foldl_append, List.foldl_cons, List.foldl_nil]
  have hstate := foldl_state lines ⟨none, none⟩ []
  obtain ⟨d, hd⟩ := Option.isSome_iff_exists.mp hdate
  set A := List.foldl processLine (⟨none, none⟩, ([] : List IntervalRecord)) lines with hA
  unfold processLine
  rw [if_neg hnil, if_neg h200, if_pos h300]
  cases hlv : lastValidHeader lines with
  | none =>
    rw [hlv] at hstate
    have hstate2 : A.1 = (⟨none, none⟩ : ParseState) := hstate
    rw [hstate2, if_neg (by simp [truthy])]
    simp
  | some h =>
    rw [hlv] at hstate
    have hstate2 : A.1
        = (⟨some (h.getD 1 ""), some (sectionMapping (h.getD 3 ""))⟩ : ParseState) :=
      hstate
    rw [hstate2]
    by_cases hempty : h.getD 1 "" = ""
    · have hfalse : (truthy ((⟨some (h.getD 1 ""), some (sectionMapping (h.getD 3 ""))⟩ :
            ParseState)).currentNmi
          && truthy ((⟨some (h.getD 1 ""), some (sectionMapping (h.getD 3 ""))⟩ :
            ParseState)).currentSection
          && decide (3 ≤ f.length)) = false := by
        show (truthy (some (h.getD 1 "")) && truthy (some (sectionMapping (h.getD 3 "")))
            && decide (3 ≤ f.length)) = false
        rw [hempty]
        simp [truthy]
      rw [if_neg (by rw [hfalse] ; decide)]
      show A.2.length = A.2.length + (if h.getD 1 "" = "" then 0 else 1)
      rw [if_pos hempty]
      rfl
    · have hg : (truthy ((⟨some (h.getD 1 ""), some (sectionMapping (h.getD 3 ""))⟩ :
              ParseState)).currentNmi
          && truthy ((⟨some (h.getD 1 ""), some (sectionMapping (h.getD 3 ""))⟩ :
              ParseState)).currentSection
          && decide (3 ≤ f.length)) = true := by
        have h1 : truthy (some (h.getD 1 "")) = true := by
          show (!(h.getD 1 "" == "")) = true
          cases hb : (h.getD 1 "" == "") with
          | true => exact absurd (eq_of_beq hb) hempty
          | false => rfl
        have h2 : truthy (some (sectionMapping (h.getD 3 ""))) = true := by
          show (!(sectionMapping (h.getD 3 "") == "")) = true
          cases hb : (sectionMapping (h.getD 3 "") == "") with
          | true => exact absurd (eq_of_beq hb) (sectionMapping_ne_empty _)
          | false => rfl
        show (truthy (some (h.getD 1 "")) && truthy (some (sectionMapping (h.getD 3 "")))
            && decide (3 ≤ f.length)) = true
        rw [h1, h2, decide_eq_true hlen]
        rfl
      rw [if_pos hg, hd]
      show (A.2 ++ [(⟨h.getD 1 "", sectionMapping (h.getD 3 ""), d,
          buildValues f⟩ : IntervalRecord)]).length
          = A.2.length + (if h.getD 1 "" = "" then 0 else 1)
      rw [List.length_append, if_neg hempty]
      rfl

def cexW3lines : List (List String) := [["200", "NMI001", "E5B5E1", "E5", "a", "b"]]

def cexW3line300 : List String := ["300", "20240101", "1.5"]

theorem C3_witness :
    (cexW3line300.headD "" = "300" ∧ 3 ≤ cexW3line300.length
      ∧ (parseDate (stripStr (cexW3line300.getD 1 ""))).isSome = true)
    ∧ (parseNem12 (cexW3lines ++ [cexW3line300])).length
        = (parseNem12 cexW3lines).length
          + (match lastValidHeader cexW3lines with
              | some h => if h.getD 1 "" = "" then 0 else 1
              | none => 0) :=
  ⟨⟨by decide, by decide, by decide⟩,
    C3_orphan_interval cexW3lines cexW3line300 (by decide) (by decide) (by decide)⟩

def cexC3header : List String := ["200", "", "E5B5E1", "E5", "a", "b"]

def cexC3line300 : List String := ["300", "20240101", "1.5"]

/-- C3 counterexample: a valid "300" line that *follows* a "200" header with
6 fields is still dropped (no record emitted), because that header's meter-id
field is empty, so the claimed "if and only if" fails. -/
theorem C3_counterexample :
    cexC3header.headD "" = "200" ∧ 6 ≤ cexC3header.length
    ∧ cexC3line300.headD "" = "300" ∧ 3 ≤ cexC3line300.length
    ∧ (parseDate (stripStr (cexC3line300.getD 1 ""))).isSome = true
    ∧ parseNem12 [cexC3header, cexC3line300] = [] := by
  decide

/-! ## Interval expander lemmas (for C6) -/

theorem expandFrom_length (r : IntervalRecord) :
    ∀ (vs : List (Option ℚ)) (i : ℕ),
      (expandFrom r i vs).length = (vs.filter (fun v => v.isSome)).length := by
  intro vs
  induction vs with
  | nil => intro i ; rfl
  | cons v t ih =>
    intro i
    cases v with
    | none =>
      show (expandFrom r (i + 1) t).length = ((none :: t).filter (fun v => v.isSome)).length
      rw [List.filter_cons]
      simp [ih (i + 1)]
    | some w =>
      show (sampleAt r i w :: expandFrom r (i + 1) t).length
        = ((some w :: t).filter (fun v => v.isSome)).length
      rw [List.filter_cons]
      simp [ih (i + 1)]

theorem expandFrom_mem (r : IntervalRecord) :
    ∀ (vs : List (Option ℚ)) (i0 : ℕ) (s : FiveMinuteSample),
      s ∈ expandFrom r i0 vs → ∃ j v, j < vs.length ∧ vs.getD j none = some v
        ∧ s = sampleAt r (i0 + j) v := by
  intro vs
  induction vs with
  | nil => intro i0 s hs ; exact absurd hs (List.not_mem_nil s)
  | cons v t ih =>
    intro i0 s hs
    cases v with
    | none =>
      obtain ⟨j, w, hj, hw, hsv⟩ := ih (i0 + 1) s hs
      refine ⟨j + 1, w, by simpa using hj, by simpa using hw, ?_⟩
      rw [hsv, show i0 + 1 + j = i0 + (j + 1) by omega]
    | some w0 =>
      rcases List.mem_cons.mp hs with h1 | h1
      · exact ⟨0, w0, by simp, by simp, by simpa using h1⟩
      · obtain ⟨j, w, hj, hw, hsv⟩ := ih (i0 + 1) s h1
        refine ⟨j + 1, w, by simpa using hj, by simpa using hw, ?_⟩
        rw [hsv, show i0 + 1 + j = i0 + (j + 1) by omega]

theorem expandFrom_ts_ge (r : IntervalRecord) (vs : List (Option ℚ)) (i0 : ℕ)
    (s : FiveMinuteSample) (hs : s ∈ expandFrom r i0 vs) :
    r.dateOrd * 1440 + 5 * i0 ≤ s.timestamp := by
  obtain ⟨j, v, hj, hv, rfl⟩ := expandFrom_mem r vs i0 s hs
  simp only [sampleAt]
  push_cast
  omega

theorem expandFrom_countP_some (r : IntervalRecord) :
    ∀ (vs : List (Option ℚ)) (i0 j : ℕ) (v : ℚ), j < vs.length →
      vs.getD j none = some v →
      (expandFrom r i0 vs).countP (fun s => s = sampleAt r (i0 + j) v) = 1 := by
  intro vs
  induction vs with
  | nil => intro i0 j v hj _ ; exact absurd hj (by simp)
  | cons w t ih =>
    intro i0 j v hj hv
    cases j with
    | zero =>
      have hw : w = some v := by simpa using hv
      subst hw
      show List.countP (fun s => decide (s = sampleAt r (i0 + 0) v))
          (sampleAt r i0 v :: expandFrom r (i0 + 1) t) = 1
      rw [List.countP_cons]
      have htail : List.countP (fun s => decide (s = sampleAt r (i0 + 0) v))
          (expandFrom r (i0 + 1) t) = 0 := by
        rw [List.countP_eq_zero]
        intro s hs
        have hts := expandFrom_ts_ge r t (i0 + 1) s hs
        simp only [decide_eq_true_eq]
        intro heq
        rw [heq] at hts
        simp only [sampleAt] at hts
        push_cast at hts
        omega
      rw [htail, if_pos (by simp)]
    | succ j2 =>
      have hvt : t.getD j2 none = some v := by simpa using hv
      have hjt : j2 < t.length := by simpa using hj
      have hidx : i0 + 1 + j2 = i0 + (j2 + 1) := by omega
      cases w with
      | none =>
        show List.countP (fun s => decide (s = sampleAt r (i0 + (j2 + 1)) v))
            (expandFrom r (i0 + 1) t) = 1
        have htail := ih (i0 + 1) j2 v hjt hvt
        rw [hidx] at htail
        exact htail
      | some w0 =>
        show List.countP (fun s => decide (s = sampleAt r (i0 + (j2 + 1)) v))
            (sampleAt r i0 w0 :: expandFrom r (i0 + 1) t) = 1
        rw [List.countP_cons]
        have hhead : (decide (sampleAt r i0 w0 = sampleAt r (i0 + (j2 + 1)) v)) = false := by
          apply decide_eq_false
          intro heq
          have hts := congrArg FiveMinuteSample.timestamp heq
          simp only [sampleAt] at hts
          push_cast at hts
          omega
        have htail := ih (i0 + 1) j2 v hjt hvt
        rw [hidx] at htail
        rw [htail, hhead]
        rfl

theorem expandFrom_countP_missing (r : IntervalRecord)
    (vs : List (Option ℚ)) (i0 j : ℕ) (hj : j < vs.length)
    (hmiss : vs.getD j none = none) :
    (expandFrom r i0 vs).countP
      (fun s => s.timestamp = r.dateOrd * 1440 + 5 * (i0 + j)) = 0 := by
  rw [List.countP_eq_zero]
  intro s hs
  obtain ⟨j2, v, hj2, hv, rfl⟩ := expandFrom_mem r vs i0 s hs
  simp only [sampleAt, decide_eq_true_eq]
  intro heq
  have hj2j : j2 = j := by
    push_cast at heq
    omega
  rw [hj2j, hmiss] at hv
  exact Option.noConfusion hv

/-- C6: the expander emits, for every slot `i` holding a non-missing value
`v`, exactly one sample (namely `sampleAt r i v`, at timestamp
`date + 5·i` minutes), and no sample at the timestamp of a missing slot; in
consequence the number of samples equals the number of non-missing values. -/
theorem C6_missing_value_exclusion (r : IntervalRecord) :
    (expandRecord r).length = (r.values.filter (fun v => v.isSome)).length
    ∧ (∀ (i : ℕ) (v : ℚ), i < r.values.length → r.values.getD i none = some v →
        (expandRecord r).countP (fun s => s = sampleAt r i v) = 1)
    ∧ (∀ i : ℕ, i < r.values.length → r.values.getD i none = none →
        (expandRecord r).countP
          (fun s => s.timestamp = r.dateOrd * 1440 + 5 * i) = 0) := by
  refine ⟨expandFrom_length r r.values 0, ?_, ?_⟩
  · intro i v hi hv
    have h := expandFrom_countP_some r r.values 0 i v hi hv
    simpa using h
  · intro i hi hv
    have h := expandFrom_countP_missing r r.values 0 i hi hv
    simpa using h

def cexW6rec : IntervalRecord := ⟨"NMI001", "Import", 0, [some 2, none, some 3]⟩

theorem C6_witness :
    ((0 < cexW6rec.values.length ∧ cexW6rec.values.getD 0 none = some 2)
      ∧ (1 < cexW6rec.values.length ∧ cexW6rec.values.getD 1 none = none))
    ∧ (expandRecord cexW6rec).countP (fun s => s = sampleAt cexW6rec 0 2) = 1
    ∧ (expandRecord cexW6rec).countP
        (fun s => s.timestamp = cexW6rec.dateOrd * 1440 + 5 * 1) = 0 :=
  ⟨⟨⟨by simp [cexW6rec], rfl⟩, ⟨by simp [cexW6rec], rfl⟩⟩,
    (C6_missing_value_exclusion cexW6rec).2.1 0 2 (by simp [cexW6rec]) rfl,
    (C6_missing_value_exclusion cexW6rec).2.2 1 (by simp [cexW6rec]) rfl⟩

/-! ## Full-day aggregation lemmas (for C1) -/

theorem dedup_map_of_injective {α β : Type} [DecidableEq α] [DecidableEq β]
    {g : α → β} (hg : Function.Injective g) :
    ∀ l : List α, (l.map g).dedup = l.dedup.map g := by
  intro l
  induction l with
  | nil => rfl
  | cons a t ih =>
    by_cases hmem : a ∈ t
    · rw [List.map_cons, List.dedup_cons_of_mem (List.mem_map_of_mem g hmem),
        List.dedup_cons_of_mem hmem, ih]
    · have hnotmem : g a ∉ t.map g := by
        intro hc
        obtain ⟨x, hx, hgx⟩ := List.mem_map.mp hc
        rw [hg hgx] at hx
        exact hmem hx
      rw [List.map_cons, List.dedup_cons_of_not_mem hnotmem, ih,
        List.dedup_cons_of_not_mem hmem, List.map_cons]

theorem expandFrom_map_some (r : IntervalRecord) :
    ∀ (vs : List ℚ) (i : ℕ),
      expandFrom r i (vs.map some)
        = ((List.range' i vs.length).zip vs).map (fun p => sampleAt r p.1 p.2) := by
  intro vs
  induction vs with
  | nil => intro i ; rfl
  | cons v t ih =>
    intro i
    show sampleAt r i v :: expandFrom r (i + 1) (t.map some)
        = ((List.range' i (t.length + 1)).zip (v :: t)).map (fun p => sampleAt r p.1 p.2)
    rw [List.range'_succ, List.zip_cons_cons, List.map_cons, ih (i + 1)]

theorem sampleKey_sampleAt (r : IntervalRecord) (i : ℕ) (v : ℚ) :
    sampleKey (sampleAt r i v) = dayKey r (i / 12) := by
  unfold sampleKey sampleAt dayKey
  simp only [Prod.mk.injEq]
  refine ⟨trivial, trivial, ?_⟩
  have h1 : r.dateOrd * 1440 + 5 * (i : ℤ) = 5 * (i : ℤ) + 60 * (r.dateOrd * 24) := by
    ring
  rw [h1, Int.add_mul_ediv_left _ _ (by norm_num : (60 : ℤ) ≠ 0)]
  have hnat : 5 * i / 60 = i / 12 := by omega
  have h2 : (5 * (i : ℤ)) / 60 = ((i / 12 : ℕ) : ℤ) := by
    calc (5 * (i : ℤ)) / 60 = ((5 * i : ℕ) : ℤ) / ((60 : ℕ) : ℤ) := by push_cast ; ring_nf
      _ = ((5 * i / 60 : ℕ) : ℤ) := (Int.ofNat_ediv _ _).symm
      _ = ((i / 12 : ℕ) : ℤ) := by rw [hnat]
  rw [h2]
  ring

theorem dayKey_injective (r : IntervalRecord) : Function.Injective (dayKey r) := by
  intro a b hab
  unfold dayKey at hab
  have h3 := congrArg (fun p => p.2.2) hab
  simp only at h3
  omega

theorem foldl_max_const : ∀ (t : List FiveMinuteSample) (m : ℤ),
    (∀ s ∈ t, s.date = m) → t.foldl (fun a x => max a x.date) m = m := by
  intro t
  induction t with
  | nil => intro m _ ; rfl
  | cons x ts ih =>
    intro m hall
    rw [List.foldl_cons, hall x (List.mem_cons_self _ _), max_self]
    exact ih m (fun s hs => hall s (List.mem_cons_of_mem _ hs))

theorem maxDate_const (l : List FiveMinuteSample) (d : ℤ) (hne : l ≠ [])
    (hall : ∀ s ∈ l, s.date = d) : maxDate l = d := by
  match l with
  | [] => exact absurd rfl hne
  | s :: t =>
    rw [maxDate, hall s (List.mem_cons_self _ _)]
    exact foldl_max_const t d (fun x hx => hall x (List.mem_cons_of_mem _ hx))

theorem zip_range'_replicate (c : ℚ) : ∀ (n s : ℕ),
    (List.range' s n).zip (List.replicate n c) = (List.range' s n).map (fun i => (i, c)) := by
  intro n
  induction n with
  | zero => intro s ; rfl
  | succ m ih =>
    intro s
    rw [List.range'_succ, List.replicate_succ, List.zip_cons_cons, ih (s + 1),
      List.map_cons]

theorem bucketSum_replicate (c : ℚ) (n h : ℕ) :
    bucketSum (List.replicate n c) h
      = (((List.range n).filter (fun i => i / 12 = h)).length : ℚ) * c := by
  unfold bucketSum
  rw [List.length_replicate, List.range_eq_range', zip_range'_replicate c n 0,
    ← List.range_eq_range', List.filter_map, List.map_map]
  have hsnd : (Prod.snd ∘ fun i : ℕ => (i, c)) = fun _ : ℕ => c := rfl
  have hpred : ((fun p : ℕ × ℚ => decide (p.1 / 12 = h)) ∘ fun i : ℕ => (i, c))
      = fun i : ℕ => decide (i / 12 = h) := rfl
  rw [hsnd, hpred, List.map_const']
  rw [List.sum_replicate, nsmul_eq_mul]

theorem createHourly_fullDay (r : IntervalRecord) (vs : List ℚ)
    (hvals : r.values = vs.map some) (hlen : vs.length = 288) :
    ∃ rows, createHourly [r] = some rows ∧ rows.length = 24
      ∧ rows.map (fun row => row.hourly_energy_kwh)
          = (List.range 24).map (fun h => round6 (bucketSum vs h))
      ∧ ((List.range 24).map (fun h => bucketSum vs h)).sum = vs.sum := by
  have hsamples : expand [r]
      = ((List.range 288).zip vs).map (fun p => sampleAt r p.1 p.2) := by
    show expandRecord r ++ [] = _
    rw [List.append_nil]
    show expandFrom r 0 r.values = _
    rw [hvals, expandFrom_map_some r vs 0, hlen, ← List.range_eq_range']
  have hSlen : (((List.range 288).zip vs).map
      (fun p => sampleAt r p.1 p.2)).length = 288 := by
    simp [hlen]
  have hSne : ((List.range 288).zip vs).map (fun p => sampleAt r p.1 p.2) ≠ [] := by
    intro hc
    rw [hc] at hSlen
    exact absurd hSlen (by decide)
  have hdates : ∀ s ∈ ((List.range 288).zip vs).map (fun p => sampleAt r p.1 p.2),
      s.date = r.dateOrd := by
    intro s hs
    obtain ⟨p, _, rfl⟩ := List.mem_map.mp hs
    rfl
  have hmax : maxDate (((List.range 288).zip vs).map (fun p => sampleAt r p.1 p.2))
      = r.dateOrd := maxDate_const _ r.dateOrd hSne hdates
  have hfilter : temporalFilter (((List.range 288).zip vs).map
      (fun p => sampleAt r p.1 p.2)) = ((List.range 288).zip vs).map
      (fun p => sampleAt r p.1 p.2) := by
    unfold temporalFilter
    apply List.filter_eq_self.mpr
    intro s hs
    rw [decide_eq_true_eq, cutoffDate, hmax, hdates s hs]
    omega
  have hkeys : sampleKeys (((List.range 288).zip vs).map (fun p => sampleAt r p.1 p.2))
      = (List.range 24).map (dayKey r) := by
    unfold sampleKeys
    rw [List.map_map]
    have hcomp : (sampleKey ∘ fun p : ℕ × ℚ => sampleAt r p.1 p.2)
        = fun p : ℕ × ℚ => dayKey r (p.1 / 12) := by
      funext p
      exact sampleKey_sampleAt r p.1 p.2
    rw [hcomp,
      show (fun p : ℕ × ℚ => dayKey r (p.1 / 12))
        = (dayKey r) ∘ ((fun i : ℕ => i / 12) ∘ Prod.fst) from rfl,
      ← List.map_map, ← List.map_map,
      List.map_fst_zip _ _ (by simp [hlen]),
      dedup_map_of_injective (dayKey_injective r),
      show ((List.range 288).map (fun i : ℕ => i / 12)).dedup = List.range 24 by decide]
  have hgroup : ∀ h2 : ℕ,
      groupOf (((List.range 288).zip vs).map (fun p => sampleAt r p.1 p.2)) (dayKey r h2)
        = (((List.range 288).zip vs).filter (fun p => p.1 / 12 = h2)).map
            (fun p => sampleAt r p.1 p.2) := by
    intro h2
    unfold groupOf
    rw [List.filter_map]
    congr 1
    apply List.filter_congr
    intro p _
    show decide (sampleKey (sampleAt r p.1 p.2) = dayKey r h2) = decide (p.1 / 12 = h2)
    rw [decide_eq_decide, sampleKey_sampleAt]
    exact ⟨fun he => dayKey_injective r he, fun he => by rw [he]⟩
  have hgsum : ∀ h2 : ℕ,
      gSum (groupOf (((List.range 288).zip vs).map (fun p => sampleAt r p.1 p.2))
        (dayKey r h2)) = bucketSum vs h2 := by
    intro h2
    rw [hgroup h2]
    unfold gSum bucketSum
    rw [List.map_map, hlen]
    have hcomp : ((fun s : FiveMinuteSample => s.energy)
        ∘ fun p : ℕ × ℚ => sampleAt r p.1 p.2) = (Prod.snd : ℕ × ℚ → ℚ) := rfl
    rw [hcomp]
  have hch : createHourly [r]
      = some (aggregate (((List.range 288).zip vs).map (fun p => sampleAt r p.1 p.2))) := by
    unfold createHourly
    rw [if_neg (show ¬([r] = []) by simp),
      if_neg (show ¬(expand [r] = []) from by rw [hsamples] ; exact hSne),
      hsamples, hfilter]
  refine ⟨(List.range 24).map (fun h =>
      mkRow (dayKey r h) (groupOf (((List.range 288).zip vs).map
        (fun p => sampleAt r p.1 p.2)) (dayKey r h))), ?_, by simp, ?_, ?_⟩
  · rw [hch]
    unfold aggregate
    rw [hkeys, List.map_map]
    rfl
  · rw [List.map_map]
    apply List.map_congr_left
    intro h2 _
    show (mkRow (dayKey r h2) (groupOf _ (dayKey r h2))).hourly_energy_kwh
        = round6 (bucketSum vs h2)
    rw [mkRow_hourly_energy, round6_round6, hgsum h2]
  · have hcov : ∀ p ∈ (List.range 288).zip vs,
        (fun q : ℕ × ℚ => q.1 / 12) p ∈ List.range 24 := by
      intro p hp
      have h1 : p.1 ∈ List.range 288 := by
        obtain ⟨a, b⟩ := p
        exact (List.of_mem_zip hp).1
      rw [List.mem_range] at h1
      rw [List.mem_range]
      show p.1 / 12 < 24
      omega
    have hfib : ((List.range 24).map (fun k =>
        ((((List.range 288).zip vs).filter (fun p => p.1 / 12 = k)).map Prod.snd).sum)).sum
        = (((List.range 288).zip vs).map Prod.snd).sum :=
      sum_fiberwise (fun q : ℕ × ℚ => q.1 / 12) Prod.snd ((List.range 288).zip vs)
        (List.range 24) (List.nodup_range 24) hcov
    have hsnd : (((List.range 288).zip vs).map Prod.snd).sum = vs.sum := by
      rw [List.map_snd_zip _ _ (by simp [hlen])]
    have hbs : ∀ h2 ∈ List.range 24, bucketSum vs h2
        = ((((List.range 288).zip vs).filter (fun p => p.1 / 12 = h2)).map Prod.snd).sum := by
      intro h2 _
      unfold bucketSum
      rw [hlen]
    rw [List.map_congr_left hbs]
    exact hfib.trans hsnd

/-- C1 (amended): for a single-day input with all 288 slots present the hourly
aggregation is conservative up to the 6-decimal rounding of each of the 24
hourly sums: the pre-rounding bucket sums add up to the raw total *exactly*,
so the reported total differs from the raw total by at most
`24 × (10⁻⁶ / 2) = 1.2 × 10⁻⁵`.  The original `10⁻⁶` tolerance is too tight —
see the counterexample. -/
theorem C1_aggregation_conservation (r : IntervalRecord) (vs : List ℚ)
    (hvals : r.values = vs.map some) (hlen : vs.length = 288) :
    ∃ rows, createHourly [r] = some rows ∧ rows.length = 24
      ∧ |((rows.map (fun row => row.hourly_energy_kwh)).sum) - vs.sum| ≤ 12 / 1000000 := by
  obtain ⟨rows, hch, hrows24, hmap, hsum⟩ := createHourly_fullDay r vs hvals hlen
  refine ⟨rows, hch, hrows24, ?_⟩
  rw [hmap, ← hsum]
  have hbound := sum_sub_abs_le (fun h => round6 (bucketSum vs h))
    (fun h => bucketSum vs h) (1 / 2000000) (List.range 24)
    (fun k _ => round6_sub_abs (bucketSum vs k))
  have h24 : ((List.range 24).length : ℚ) * (1 / 2000000) = 12 / 1000000 := by
    rw [List.length_range]
    norm_num
  rw [h24] at hbound
  exact hbound

def cexW1rec : IntervalRecord :=
  ⟨"NMI003", "Import", 10, (List.replicate 288 (0 : ℚ)).map some⟩

theorem C1_witness :
    (cexW1rec.values = (List.replicate 288 (0 : ℚ)).map some
      ∧ (List.replicate 288 (0 : ℚ)).length = 288)
    ∧ ∃ rows, createHourly [cexW1rec] = some rows ∧ rows.length = 24
      ∧ |((rows.map (fun row => row.hourly_energy_kwh)).sum)
          - (List.replicate 288 (0 : ℚ)).sum| ≤ 12 / 1000000 :=
  ⟨⟨rfl, by simp⟩, C1_aggregation_conservation cexW1rec _ rfl (by simp)⟩

def cexVs : List ℚ := List.replicate 288 (1 / 8000000)

def cexC1rec : IntervalRecord := ⟨"NMI001", "Import", 738886, cexVs.map some⟩

/-- C1 counterexample: with all 288 values equal to `1.25 × 10⁻⁷` kWh, every
hourly sum is `1.5 × 10⁻⁶`, which `round(6)` rounds (half-to-even) to
`2 × 10⁻⁶`; the 24 reported sums add up to `4.8 × 10⁻⁵` while the raw total is
`3.6 × 10⁻⁵`, a discrepancy of `1.2 × 10⁻⁵ > 10⁻⁶`. -/
theorem C1_counterexample :
    ¬ (|((((createHourly [cexC1rec]).getD []).map
          (fun row => row.hourly_energy_kwh)).sum) - cexVs.sum| ≤ 1 / 1000000) := by
  obtain ⟨rows, hch, hrows24, hmap, hsum⟩ :=
    createHourly_fullDay cexC1rec cexVs rfl (by simp [cexVs])
  rw [hch, Option.getD_some, hmap]
  have hb : ∀ h ∈ List.range 24, round6 (bucketSum cexVs h) = 2 / 1000000 := by
    intro h hh
    have hlt : h < 24 := List.mem_range.mp hh
    have hcount : ((List.range 288).filter (fun i => i / 12 = h)).length = 12 :=
      (by decide : ∀ h2 < 24,
        ((List.range 288).filter (fun i => i / 12 = h2)).length = 12) h hlt
    rw [show cexVs = List.replicate 288 ((1 : ℚ) / 8000000) from rfl,
      bucketSum_replicate, hcount,
      show ((12 : ℕ) : ℚ) * ((1 : ℚ) / 8000000) = 3 / 2000000 by norm_num,
      round6, show ((3 : ℚ) / 2000000 * 1000000) = 3 / 2 by norm_num,
      rhe_eq_of_tie (3 / 2) 1 (by norm_num)]
    norm_num
  rw [List.map_congr_left hb]
  have hconst : ((List.range 24).map (fun _ => (2 : ℚ) / 1000000)).sum = 48 / 1000000 := by
    rw [List.map_const', List.sum_replicate, List.length_range, nsmul_eq_mul]
    norm_num
  have hvs : cexVs.sum = 36 / 1000000 := by
    rw [show cexVs = List.replicate 288 ((1 : ℚ) / 8000000) from rfl,
      List.sum_replicate, nsmul_eq_mul]
    norm_num
  rw [hconst, hvs,
    show (48 : ℚ) / 1000000 - 36 / 1000000 = 12 / 1000000 by norm_num,
    abs_of_nonneg (by norm_num : (0 : ℚ) ≤ 12 / 1000000)]
  norm_num
